/-
Verification of the streaming per-author sentiment aggregation consumer
(src/consumers/consumer_hanson.py) against its specification.

Shallow embedding notes.
* The SQLite table `messages` is modelled as a list of rows in insertion
  order (`Store`).  The `id INTEGER PRIMARY KEY AUTOINCREMENT` column is
  irrelevant to every claim and is omitted; `author TEXT UNIQUE` can hold
  SQL NULL (Python `None`), modelled as `Option String`.  SQLite's UNIQUE
  constraint admits any number of NULL keys, and `WHERE author = ?` with a
  NULL parameter matches no row (SQL three-valued equality); `sqlKeyEq`
  captures exactly that comparison.
* Sentiment arithmetic is carried out in `ℚ` (exact arithmetic); the
  floating-point tolerance clauses of the spec are discharged by exact
  equality.
* `float(message.get("sentiment", 0.0))` succeeds on an absent field
  (yielding 0.0) and on a numeric field, and raises on a non-numeric
  field; `SentValue`/`getSentiment` model this, with `Option` as the
  result of fallible code.
* The Kafka deserializer `lambda x: json.loads(x.decode("utf-8"))` is
  modelled by `decode` over `Raw` payloads: a payload is either valid
  UTF-8 JSON for a message or malformed.  The consumer loop
  `for msg in consumer: process_message(msg.value)` contains no exception
  handling, so a deserializer or processing exception terminates the
  loop; `consumeLoop` returns the state reached so far together with a
  flag that is `false` when the loop was terminated by an exception.
* The in-memory `author_sentiments` / `author_counts` defaultdicts
  feeding the chart are modelled by `Cache`, including their key set.
  The chart itself writes no program state, but its `ax.bar` call raises
  `TypeError` when an author key is Python `None` (matplotlib has no
  unit converter for `NoneType`), which kills the handler-free loop;
  `update_live_chart` / `process_message_full` / `consumeLoopFull` model
  this error path.  `consumeLoop` omits the chart call; it agrees with
  `consumeLoopFull` on runs whose authors are all strings (the chart
  then succeeds), and on a run ending at its first authorless message it
  computes the same store, because the SQLite commit and the cache
  writes precede the crashing chart call.
-/

import Mathlib

set_option maxHeartbeats 1000000

/-- One row of the SQLite `messages` table: `author TEXT UNIQUE` (may be
SQL NULL), `num_messages INTEGER`, `average_sentiment REAL`. -/
structure SRow where
  key : Option String
  count : ℕ
  avg : ℚ
deriving DecidableEq

/-- The `messages` table, rows in insertion (rowid) order. -/
abbrev Store := List SRow

/-- SQL equality `author = ?` for the `WHERE` clause: NULL compares false
with everything, including NULL. -/
def sqlKeyEq : Option String → Option String → Bool
  | some a, some b => a == b
  | _, _ => false

/-- `SELECT num_messages, average_sentiment FROM messages WHERE author = ?`
followed by `fetchone()`: the first matching row, if any. -/
def fetchRow (author : Option String) : Store → Option (ℕ × ℚ)
  | [] => none
  | r :: rs => if sqlKeyEq r.key author then some (r.count, r.avg) else fetchRow author rs

/-- `UPDATE messages SET num_messages = ?, average_sentiment = ? WHERE
author = ?`: every matching row gets the new values. -/
def updateRows (author : Option String) (n : ℕ) (v : ℚ) (st : Store) : Store :=
  st.map fun r => if sqlKeyEq r.key author then { r with count := n, avg := v } else r

/-- `update_sentiment_by_author(author, sentiment, db_path)`
(consumer_hanson.py lines 89-124): fetch the author's row; if present,
set `num_messages` to `num_messages + 1` and `average_sentiment` to
`((avg_sentiment * num_messages) + sentiment) / new_num_messages`;
otherwise insert `(author, 1, sentiment)`. -/
def update_sentiment_by_author (author : Option String) (sentiment : ℚ) (st : Store) : Store :=
  match fetchRow author st with
  | some (n, avg) => updateRows author (n + 1) ((avg * n + sentiment) / (n + 1)) st
  | none => st ++ [⟨author, 1, sentiment⟩]

/-- The global in-memory state feeding the live chart
(consumer_hanson.py lines 132-134): `author_sentiments = defaultdict(float)`
and `author_counts = defaultdict(int)`, i.e. total maps defaulting to 0,
together with their key set in insertion order (a defaultdict records a
key on first access; `update_live_chart` reads
`list(author_sentiments.keys())`). -/
structure Cache where
  author_sentiments : Option String → ℚ
  author_counts : Option String → ℕ
  keys : List (Option String)

/-- The caches at process start: both defaultdicts empty. -/
def cache0 : Cache := ⟨fun _ => 0, fun _ => 0, []⟩

/-- `author_sentiments[author] += sentiment; author_counts[author] += 1`
(consumer_hanson.py lines 165-166); the first access to a key records it
in the defaultdicts. -/
def cacheAdd (author : Option String) (s : ℚ) (c : Cache) : Cache :=
  { author_sentiments := fun k =>
      if k = author then c.author_sentiments k + s else c.author_sentiments k
    author_counts := fun k =>
      if k = author then c.author_counts k + 1 else c.author_counts k
    keys := if author ∈ c.keys then c.keys else c.keys ++ [author] }

/-- The value found under the `"sentiment"` key of a decoded JSON message:
either a value `float()` accepts (a number or numeric string) or one it
raises on. -/
inductive SentValue where
  | num (q : ℚ)
  | nonnum
deriving DecidableEq

/-- A decoded JSON message, restricted to the two fields
`process_message` reads: `message.get("author")` and
`message.get("sentiment", 0.0)`.  A `none` field models an absent key. -/
structure Message where
  author : Option String
  sentiment : Option SentValue
deriving DecidableEq

/-- `float(message.get("sentiment", 0.0))` (consumer_hanson.py line 160):
absent key defaults to 0.0; a present non-numeric value makes `float`
raise, modelled by `none`. -/
def getSentiment (m : Message) : Option ℚ :=
  match m.sentiment with
  | none => some 0
  | some (SentValue.num q) => some q
  | some SentValue.nonnum => none

/-- `process_message(message)` (consumer_hanson.py lines 151-167): coerce
the sentiment (raising on a non-numeric field, before any write), upsert
the store, then update the in-memory chart caches.  `none` models the
raised exception, in which case neither store nor cache was touched. -/
def process_message (m : Message) (st : Store) (c : Cache) : Option (Store × Cache) :=
  match getSentiment m with
  | none => none
  | some s => some (update_sentiment_by_author m.author s st, cacheAdd m.author s c)

/-- A raw Kafka payload: either valid UTF-8 JSON encoding a message, or a
payload `json.loads(x.decode("utf-8"))` raises on. -/
inductive Raw where
  | valid (m : Message)
  | malformed
deriving DecidableEq

/-- The deserializer `lambda x: json.loads(x.decode("utf-8"))`
(consumer_hanson.py line 195): produces the decoded message or raises. -/
def decode : Raw → Option Message
  | Raw.valid m => some m
  | Raw.malformed => none

/-- The consumption loop `for msg in consumer: process_message(msg.value)`
(consumer_hanson.py lines 204-205).  There is no exception handling: a
deserializer or processing exception propagates and terminates the loop.
The result is the store/cache state reached (earlier SQLite commits
persist) and `true` iff the whole input was consumed without an
exception. -/
def consumeLoop : List Raw → Store → Cache → Store × Cache × Bool
  | [], st, c => (st, c, true)
  | r :: rs, st, c =>
    match decode r with
    | none => (st, c, false)
    | some m =>
      match process_message m st c with
      | none => (st, c, false)
      | some (st2, c2) => consumeLoop rs st2 c2

/-- `update_live_chart()` (consumer_hanson.py lines 139-149): reads
`authors = list(author_sentiments.keys())` and calls
`ax.bar(authors, ...)`.  matplotlib has no unit converter for
`NoneType`, so `ax.bar` raises `TypeError` whenever a cached author key
is Python `None`; with only string keys the call draws and returns.
`none` models the raised exception (the chart writes no program
state). -/
def update_live_chart (c : Cache) : Option Unit :=
  if none ∈ c.keys then none else some ()

/-- The full body of `process_message` including the final
`update_live_chart()` call (consumer_hanson.py lines 151-167): the store
upsert is committed and the caches updated before the chart call, so a
chart exception leaves both in place.  The flag is `true` iff no
exception was raised. -/
def process_message_full (m : Message) (st : Store) (c : Cache) : Store × Cache × Bool :=
  match process_message m st c with
  | none => (st, c, false)
  | some (st2, c2) =>
    match update_live_chart c2 with
    | none => (st2, c2, false)
    | some _ => (st2, c2, true)

/-- The consumption loop with the chart call's error path included: any
exception — deserializer, `float()`, or `ax.bar` — propagates out of the
handler-free `for` loop (consumer_hanson.py lines 204-205) and ends it,
with the state committed so far retained. -/
def consumeLoopFull : List Raw → Store → Cache → Store × Cache × Bool
  | [], st, c => (st, c, true)
  | r :: rs, st, c =>
    match decode r with
    | none => (st, c, false)
    | some m =>
      match process_message_full m st c with
      | (st2, c2, false) => (st2, c2, false)
      | (st2, c2, true) => consumeLoopFull rs st2 c2

/-- The SQLite database file on disk: absent, or holding a `messages`
table. -/
abbrev DbFile := Option Store

/-- `if SQLITE_PATH.exists(): SQLITE_PATH.unlink()` (consumer_hanson.py
lines 228-229): after this the file is gone in either case. -/
def unlinkIfExists : DbFile → DbFile
  | some _ => none
  | none => none

/-- `init_db(db_path)` (consumer_hanson.py lines 67-83): `CREATE TABLE IF
NOT EXISTS messages (...)` keeps an existing table and otherwise creates
an empty one. -/
def init_db : DbFile → Store
  | some st => st
  | none => []

/-- `main()` (consumer_hanson.py lines 221-233): delete any existing
database file, initialize the database, then consume.  (Named `mainRun`
because Lean reserves `main`.) -/
def mainRun (f : DbFile) (raws : List Raw) : Store × Cache × Bool :=
  consumeLoop raws (init_db (unlinkIfExists f)) cache0

/-- Repeated `update_sentiment_by_author` calls for one author, in
order. -/
def applyFor (a : String) (ss : List ℚ) (st : Store) : Store :=
  ss.foldl (fun st s => update_sentiment_by_author (some a) s st) st

/-- Repeated `update_sentiment_by_author` calls for a sequence of
(author, sentiment) events, in order. -/
def applyAll (es : List (String × ℚ)) (st : Store) : Store :=
  es.foldl (fun st e => update_sentiment_by_author (some e.1) e.2 st) st

/-- Agreement of the in-memory chart caches with the store: for every
(string) author, the cached count is the stored `num_messages` (0 when no
row exists) and the cached sentiment sum is `average_sentiment *
num_messages` (0 when no row exists). -/
def cacheInv (st : Store) (c : Cache) : Prop :=
  ∀ a : String,
    c.author_counts (some a) = (fetchRow (some a) st).elim 0 Prod.fst ∧
    c.author_sentiments (some a) = (fetchRow (some a) st).elim 0 (fun p => p.2 * p.1)

/-- Every row of the store has a positive `num_messages`. -/
def storePos (st : Store) : Prop := ∀ r ∈ st, 0 < r.count

/-- Every row of the store is keyed by a present, non-empty author
string. -/
def validRows (st : Store) : Prop := ∀ r ∈ st, ∃ a, r.key = some a ∧ a ≠ ""

/-- Agreement of the caches with the NULL-keyed rows of the store,
together with the bookkeeping that makes it inductive: every NULL row's
stored count and average match the cached values under the `none` key,
every row's key has been recorded in the defaultdict key set, and a key
never accessed caches the defaults 0. -/
def nullRowInv (st : Store) (c : Cache) : Prop :=
  (∀ r ∈ st, r.key = none →
    c.author_counts none = r.count ∧
    c.author_sentiments none = r.avg * r.count ∧ 0 < r.count) ∧
  (∀ r ∈ st, r.key ∈ c.keys) ∧
  (∀ k, k ∉ c.keys → c.author_counts k = 0 ∧ c.author_sentiments k = 0)

/-! ### Basic lemmas about the store operations -/

theorem sqlKeyEq_none_right (k : Option String) : sqlKeyEq k none = false := by
  cases k <;> rfl

theorem sqlKeyEq_some_iff (k : Option String) (b : String) :
    sqlKeyEq k (some b) = true ↔ k = some b := by
  cases k with
  | none => simp [sqlKeyEq]
  | some x => simp [sqlKeyEq]

theorem fetchRow_nullKey (st : Store) : fetchRow none st = none := by
  induction st with
  | nil => rfl
  | cons r rs ih => simp [fetchRow, sqlKeyEq_none_right, ih]

theorem fetchRow_updateRows (k : Option String) (n : ℕ) (v : ℚ) (st : Store) :
    fetchRow k (updateRows k n v st) = (fetchRow k st).map (fun _ => (n, v)) := by
  induction st with
  | nil => rfl
  | cons r rs ih =>
    by_cases h : sqlKeyEq r.key k
    · simp [updateRows, fetchRow, h]
    · simpa [updateRows, fetchRow, h] using ih

theorem fetchRow_updateRows_other (b : String) (k : Option String)
    (hbk : sqlKeyEq (some b) k = false) (n : ℕ) (v : ℚ) (st : Store) :
    fetchRow (some b) (updateRows k n v st) = fetchRow (some b) st := by
  induction st with
  | nil => rfl
  | cons r rs ih =>
    by_cases h : sqlKeyEq r.key (some b)
    · have hk : r.key = some b := (sqlKeyEq_some_iff _ _).1 h
      have ha : sqlKeyEq r.key k = false := by rw [hk]; exact hbk
      simp [updateRows, fetchRow, h, ha]
    · by_cases hM : sqlKeyEq r.key k
      · simpa [updateRows, fetchRow, h, hM] using ih
      · simpa [updateRows, fetchRow, h, hM] using ih

theorem fetchRow_append_other (k : Option String) (r : SRow) (st : Store)
    (h : sqlKeyEq r.key k = false) :
    fetchRow k (st ++ [r]) = fetchRow k st := by
  induction st with
  | nil => simp [fetchRow, h]
  | cons r2 rs ih =>
    by_cases h2 : sqlKeyEq r2.key k
    · simp [fetchRow, h2]
    · simpa [fetchRow, h2] using ih

theorem fetchRow_append_self (a : String) (cnt : ℕ) (v : ℚ) (st : Store)
    (h : fetchRow (some a) st = none) :
    fetchRow (some a) (st ++ [⟨some a, cnt, v⟩]) = some (cnt, v) := by
  induction st with
  | nil => simp [fetchRow, sqlKeyEq]
  | cons r rs ih =>
    by_cases h2 : sqlKeyEq r.key (some a)
    · rw [fetchRow, if_pos h2] at h
      exact absurd h (by simp)
    · rw [fetchRow, if_neg h2] at h
      simpa [fetchRow, h2] using ih h

/-! ### Characterisation of the upsert -/

theorem upsert_found (a : String) (s : ℚ) (st : Store) (n : ℕ) (avg : ℚ)
    (h : fetchRow (some a) st = some (n, avg)) :
    fetchRow (some a) (update_sentiment_by_author (some a) s st)
      = some (n + 1, (avg * n + s) / (n + 1)) := by
  unfold update_sentiment_by_author
  rw [h]
  rw [fetchRow_updateRows, h]
  rfl

theorem upsert_notfound (a : String) (s : ℚ) (st : Store)
    (h : fetchRow (some a) st = none) :
    fetchRow (some a) (update_sentiment_by_author (some a) s st) = some (1, s) := by
  unfold update_sentiment_by_author
  rw [h]
  exact fetchRow_append_self a 1 s st h

theorem sqlKeyEq_false_of_ne (k : Option String) (b : String) (hk : k ≠ some b) :
    sqlKeyEq k (some b) = false := by
  cases hq : sqlKeyEq k (some b) with
  | false => rfl
  | true => exact absurd ((sqlKeyEq_some_iff _ _).1 hq) hk

theorem upsert_frame (k : Option String) (b : String) (hk : k ≠ some b) (s : ℚ) (st : Store) :
    fetchRow (some b) (update_sentiment_by_author k s st) = fetchRow (some b) st := by
  have hbk : sqlKeyEq (some b) k = false := by
    cases k with
    | none => rfl
    | some x =>
      have hxb : ¬ (b = x) := fun hbx => hk (by rw [hbx])
      simp [sqlKeyEq, hxb]
  unfold update_sentiment_by_author
  cases hF : fetchRow k st with
  | none => exact fetchRow_append_other (some b) _ st (sqlKeyEq_false_of_ne k b hk)
  | some p =>
    obtain ⟨n, avg⟩ := p
    exact fetchRow_updateRows_other b k hbk _ _ st

theorem upsert_keys (k : Option String) (s : ℚ) (st : Store) (r : SRow) (hr : r ∈ st) :
    ∃ r2, r2 ∈ update_sentiment_by_author k s st ∧ r2.key = r.key := by
  unfold update_sentiment_by_author
  cases hF : fetchRow k st with
  | none => exact ⟨r, List.mem_append_left _ hr, rfl⟩
  | some p =>
    obtain ⟨n, avg⟩ := p
    refine ⟨(fun r2 => if sqlKeyEq r2.key k then
        { r2 with count := n + 1, avg := (avg * n + s) / (n + 1) } else r2) r,
      List.mem_map_of_mem _ hr, ?_⟩
    by_cases h : sqlKeyEq r.key k <;> simp [h]

theorem process_message_some (m : Message) (st : Store) (c : Cache) (st2 : Store) (c2 : Cache)
    (h : process_message m st c = some (st2, c2)) :
    ∃ s, getSentiment m = some s ∧ st2 = update_sentiment_by_author m.author s st
      ∧ c2 = cacheAdd m.author s c := by
  unfold process_message at h
  cases hS : getSentiment m with
  | none => rw [hS] at h; exact absurd h (by simp)
  | some s =>
    rw [hS] at h
    refine ⟨s, rfl, ?_, ?_⟩
    · exact congrArg Prod.fst (Option.some.inj h).symm
    · exact congrArg Prod.snd (Option.some.inj h).symm

theorem consumeLoop_keys (raws : List Raw) (st : Store) (c : Cache) (r : SRow) (hr : r ∈ st) :
    ∃ r2, r2 ∈ (consumeLoop raws st c).1 ∧ r2.key = r.key := by
  induction raws generalizing st c r with
  | nil => exact ⟨r, hr, rfl⟩
  | cons raw rest ih =>
    cases raw with
    | malformed => exact ⟨r, hr, rfl⟩
    | valid m =>
      cases hP : process_message m st c with
      | none =>
        simp only [consumeLoop, decode, hP]
        exact ⟨r, hr, rfl⟩
      | some p =>
        obtain ⟨st2, c2⟩ := p
        simp only [consumeLoop, decode, hP]
        obtain ⟨s, hS, hst2, hc2⟩ := process_message_some m st c st2 c2 hP
        obtain ⟨r2, hr2, hk2⟩ := upsert_keys m.author s st r hr
        rw [← hst2] at hr2
        obtain ⟨r3, hr3, hk3⟩ := ih st2 c2 r2 hr2
        exact ⟨r3, hr3, hk3.trans hk2⟩

/-! ### Running-mean arithmetic -/

theorem applyFor_cons (a : String) (s : ℚ) (ss : List ℚ) (st : Store) :
    applyFor a (s :: ss) st = applyFor a ss (update_sentiment_by_author (some a) s st) := rfl

theorem applyFor_run (a : String) (ss : List ℚ) (st : Store) (n : ℕ) (sum : ℚ)
    (hn : 0 < n) (h : fetchRow (some a) st = some (n, sum / n)) :
    fetchRow (some a) (applyFor a ss st)
      = some (n + ss.length, (sum + ss.sum) / (n + ss.length)) := by
  induction ss generalizing st n sum with
  | nil => simpa using h
  | cons s rest ih =>
    have hn0 : (n : ℚ) ≠ 0 := Nat.cast_ne_zero.2 (Nat.pos_iff_ne_zero.1 hn)
    have h1 : fetchRow (some a) (update_sentiment_by_author (some a) s st)
        = some (n + 1, (sum + s) / (n + 1)) := by
      rw [upsert_found a s st n (sum / n) h, div_mul_cancel₀ _ hn0]
    have h2 := ih (update_sentiment_by_author (some a) s st) (n + 1) (sum + s)
      (Nat.succ_pos n) (by rw [h1]; push_cast; ring_nf)
    rw [applyFor_cons, h2]
    simp only [Option.some.injEq, Prod.mk.injEq, List.length_cons, List.sum_cons]
    constructor
    · omega
    · congr 1 <;> push_cast <;> ring

/-! ### Per-author locality of the aggregation -/

theorem applyAll_cons (e : String × ℚ) (es : List (String × ℚ)) (st : Store) :
    applyAll (e :: es) st = applyAll es (update_sentiment_by_author (some e.1) e.2 st) := rfl

theorem applyFor_congr (a : String) (ss : List ℚ) (st1 st2 : Store)
    (h : fetchRow (some a) st1 = fetchRow (some a) st2) :
    fetchRow (some a) (applyFor a ss st1) = fetchRow (some a) (applyFor a ss st2) := by
  induction ss generalizing st1 st2 with
  | nil => exact h
  | cons s rest ih =>
    rw [applyFor_cons, applyFor_cons]
    apply ih
    cases hF : fetchRow (some a) st1 with
    | none =>
      have hF2 : fetchRow (some a) st2 = none := by rw [← h]; exact hF
      rw [upsert_notfound a s st1 hF, upsert_notfound a s st2 hF2]
    | some p =>
      obtain ⟨n, avg⟩ := p
      have hF2 : fetchRow (some a) st2 = some (n, avg) := by rw [← h]; exact hF
      rw [upsert_found a s st1 n avg hF, upsert_found a s st2 n avg hF2]

theorem fetchRow_applyAll_filter (a : String) (es : List (String × ℚ)) (st : Store) :
    fetchRow (some a) (applyAll es st)
      = fetchRow (some a) (applyFor a ((es.filter (fun e => e.1 == a)).map Prod.snd) st) := by
  induction es generalizing st with
  | nil => rfl
  | cons e rest ih =>
    by_cases h : e.1 = a
    · have hf : (e :: rest).filter (fun e2 => e2.1 == a)
          = e :: rest.filter (fun e2 => e2.1 == a) := by
        simp [List.filter_cons, h]
      rw [applyAll_cons, ih, hf, List.map_cons, applyFor_cons, h]
    · have hf : (e :: rest).filter (fun e2 => e2.1 == a)
          = rest.filter (fun e2 => e2.1 == a) := by
        simp [List.filter_cons, h]
      rw [applyAll_cons, ih, hf]
      exact applyFor_congr a _ _ st
        (upsert_frame (some e.1) a (fun hc => h (Option.some.inj hc)) e.2 st)

/-! ### Invariants preserved by the loop -/

theorem cacheInv_init : cacheInv [] cache0 := by
  intro a
  exact ⟨rfl, rfl⟩

theorem cacheInv_preserved (m : Message) (st : Store) (c : Cache) (st2 : Store) (c2 : Cache)
    (hP : process_message m st c = some (st2, c2)) (hInv : cacheInv st c) : cacheInv st2 c2 := by
  obtain ⟨s, hS, hst2, hc2⟩ := process_message_some m st c st2 c2 hP
  subst hst2
  subst hc2
  intro a
  obtain ⟨hcn, hcs⟩ := hInv a
  cases hMA : m.author with
  | none =>
    have hupd : fetchRow (some a) (update_sentiment_by_author none s st)
        = fetchRow (some a) st := upsert_frame none a (by simp) s st
    constructor
    · simpa [cacheAdd, hupd] using hcn
    · simpa [cacheAdd, hupd] using hcs
  | some b =>
    by_cases hab : b = a
    · subst hab
      cases hF : fetchRow (some b) st with
      | none =>
        have hupd := upsert_notfound b s st hF
        rw [hF] at hcn hcs
        constructor
        · simp [cacheAdd, hupd, hcn]
        · simp [cacheAdd, hupd, hcs]
      | some p =>
        obtain ⟨n, avg⟩ := p
        have hupd := upsert_found b s st n avg hF
        rw [hF] at hcn hcs
        have hn0 : ((n : ℚ) + 1) ≠ 0 := by positivity
        constructor
        · simp [cacheAdd, hupd, hcn]
        · simp [cacheAdd, hupd, hcs]
          rw [div_mul_cancel₀ _ hn0]
    · have hba : (some b : Option String) ≠ some a := fun hc => hab (Option.some.inj hc)
      have hupd := upsert_frame (some b) a hba s st
      have hne : ¬ (a = b) := fun hc => hab hc.symm
      constructor
      · simpa [cacheAdd, hupd, hne] using hcn
      · simpa [cacheAdd, hupd, hne] using hcs

theorem cacheInv_loop (raws : List Raw) (st : Store) (c : Cache) (h : cacheInv st c) :
    cacheInv (consumeLoop raws st c).1 (consumeLoop raws st c).2.1 := by
  induction raws generalizing st c with
  | nil => exact h
  | cons raw rest ih =>
    cases raw with
    | malformed => exact h
    | valid m =>
      cases hP : process_message m st c with
      | none => simpa only [consumeLoop, decode, hP] using h
      | some p =>
        obtain ⟨st2, c2⟩ := p
        simp only [consumeLoop, decode, hP]
        exact ih st2 c2 (cacheInv_preserved m st c st2 c2 hP h)

theorem storePos_upsert (k : Option String) (s : ℚ) (st : Store) (h : storePos st) :
    storePos (update_sentiment_by_author k s st) := by
  unfold update_sentiment_by_author
  cases hF : fetchRow k st with
  | none =>
    intro r hr
    rcases List.mem_append.1 hr with h1 | h1
    · exact h r h1
    · simp only [List.mem_singleton] at h1
      rw [h1]
      exact Nat.one_pos
  | some p =>
    obtain ⟨n, avg⟩ := p
    intro r hr
    obtain ⟨r0, hr0, hfr⟩ := List.mem_map.1 hr
    rw [← hfr]
    by_cases h2 : sqlKeyEq r0.key k
    · simp only [if_pos h2]
      exact Nat.succ_pos n
    · simp only [if_neg h2]
      exact h r0 hr0

theorem storePos_loop (raws : List Raw) (st : Store) (c : Cache) (h : storePos st) :
    storePos (consumeLoop raws st c).1 := by
  induction raws generalizing st c with
  | nil => exact h
  | cons raw rest ih =>
    cases raw with
    | malformed => exact h
    | valid m =>
      cases hP : process_message m st c with
      | none => simpa only [consumeLoop, decode, hP] using h
      | some p =>
        obtain ⟨st2, c2⟩ := p
        simp only [consumeLoop, decode, hP]
        obtain ⟨s, hS, hst2, hc2⟩ := process_message_some m st c st2 c2 hP
        exact ih st2 c2 (hst2 ▸ storePos_upsert m.author s st h)

theorem fetchRow_pos (k : Option String) (st : Store) (n : ℕ) (avg : ℚ)
    (hPos : storePos st) (h : fetchRow k st = some (n, avg)) : 0 < n := by
  induction st with
  | nil => exact absurd h (by simp [fetchRow])
  | cons r rs ih =>
    by_cases h2 : sqlKeyEq r.key k
    · rw [fetchRow, if_pos h2] at h
      have : r.count = n := congrArg Prod.fst (Option.some.inj h)
      rw [← this]
      exact hPos r (List.mem_cons_self r rs)
    · rw [fetchRow, if_neg h2] at h
      exact ih (fun r2 hr2 => hPos r2 (List.mem_cons_of_mem r hr2)) h

theorem validRows_upsert (k : Option String) (s : ℚ) (st : Store)
    (hk : ∃ a, k = some a ∧ a ≠ "") (h : validRows st) :
    validRows (update_sentiment_by_author k s st) := by
  unfold update_sentiment_by_author
  cases hF : fetchRow k st with
  | none =>
    intro r hr
    rcases List.mem_append.1 hr with h1 | h1
    · exact h r h1
    · simp only [List.mem_singleton] at h1
      rw [h1]
      exact hk
  | some p =>
    obtain ⟨n, avg⟩ := p
    intro r hr
    obtain ⟨r0, hr0, hfr⟩ := List.mem_map.1 hr
    rw [← hfr]
    by_cases h2 : sqlKeyEq r0.key k
    · simp only [if_pos h2]
      exact h r0 hr0
    · simp only [if_neg h2]
      exact h r0 hr0

theorem validRows_loop (raws : List Raw) (st : Store) (c : Cache)
    (hm : ∀ m, Raw.valid m ∈ raws → ∃ a, m.author = some a ∧ a ≠ "")
    (h : validRows st) : validRows (consumeLoop raws st c).1 := by
  induction raws generalizing st c with
  | nil => exact h
  | cons raw rest ih =>
    cases raw with
    | malformed => exact h
    | valid m =>
      cases hP : process_message m st c with
      | none => simpa only [consumeLoop, decode, hP] using h
      | some p =>
        obtain ⟨st2, c2⟩ := p
        simp only [consumeLoop, decode, hP]
        obtain ⟨s, hS, hst2, hc2⟩ := process_message_some m st c st2 c2 hP
        have hk : ∃ a, m.author = some a ∧ a ≠ "" :=
          hm m (List.mem_cons_self _ _)
        refine ih st2 c2 (fun m2 hm2 => hm m2 (List.mem_cons_of_mem _ hm2)) ?_
        exact hst2 ▸ validRows_upsert m.author s st hk h

/-! ### Claim theorems -/

/-- C1: for every author and sentiment, the upsert behaves as specified:
an existing row `(count, avg)` is replaced by
`(count + 1, (avg * count + sentiment) / (count + 1))`, and with no
existing row a new row `(1, sentiment)` is inserted. -/
theorem claim_C1_upsert_spec (author : String) (sentiment : ℚ) (st : Store) :
    (∀ n avg, fetchRow (some author) st = some (n, avg) →
      fetchRow (some author) (update_sentiment_by_author (some author) sentiment st)
        = some (n + 1, (avg * n + sentiment) / (n + 1))) ∧
    (fetchRow (some author) st = none →
      fetchRow (some author) (update_sentiment_by_author (some author) sentiment st)
        = some (1, sentiment)) :=
  ⟨fun n avg h => upsert_found author sentiment st n avg h,
   fun h => upsert_notfound author sentiment st h⟩

/-- Witness for C1: both branches at concrete stores. -/
theorem claim_C1_witness :
    fetchRow (some "Alice")
      (update_sentiment_by_author (some "Alice") (2/5) [⟨some "Alice", 1, 4/5⟩])
      = some (2, 3/5) ∧
    fetchRow (some "Bob") (update_sentiment_by_author (some "Bob") (1/2) []) = some (1, 1/2) := by
  constructor
  · rw [(claim_C1_upsert_spec "Alice" (2/5) [⟨some "Alice", 1, 4/5⟩]).1 1 (4/5)
      (by simp [fetchRow, sqlKeyEq])]
    norm_num
  · rw [(claim_C1_upsert_spec "Bob" (1/2) []).2 rfl]

/-- C2: starting from a store with no row for the author, applying the
sentiments `s1..sn` (n ≥ 1) in order yields the row
`(n, (s1 + ... + sn) / n)` — count n and the exact arithmetic mean. -/
theorem claim_C2_running_mean (author : String) (ss : List ℚ) (st : Store)
    (hne : ss ≠ []) (h : fetchRow (some author) st = none) :
    fetchRow (some author) (applyFor author ss st)
      = some (ss.length, ss.sum / ss.length) := by
  cases ss with
  | nil => exact absurd rfl hne
  | cons s rest =>
    have h1 := upsert_notfound author s st h
    have h2 := applyFor_run author rest (update_sentiment_by_author (some author) s st) 1 s
      Nat.one_pos (by rw [h1]; norm_num)
    rw [applyFor_cons, h2]
    simp only [Option.some.injEq, Prod.mk.injEq, List.length_cons, List.sum_cons]
    refine ⟨by omega, ?_⟩
    congr 1
    push_cast
    ring

/-- Witness for C2: the mean of [0.8, 0.4] is 0.6 with count 2. -/
theorem claim_C2_witness :
    fetchRow (some "A") (applyFor "A" [(4/5 : ℚ), 2/5] []) = some (2, 3/5) := by
  rw [claim_C2_running_mean "A" [4/5, 2/5] [] (List.cons_ne_nil _ _) rfl]
  norm_num

/-- C3: two event sequences with the same per-author subsequences for
authors A and B (as any two order-preserving interleavings have) produce
identical final rows for A and for B. -/
theorem claim_C3_interleaving (es1 es2 : List (String × ℚ)) (A B : String) (st : Store)
    (hA : es1.filter (fun e => e.1 == A) = es2.filter (fun e => e.1 == A))
    (hB : es1.filter (fun e => e.1 == B) = es2.filter (fun e => e.1 == B)) :
    fetchRow (some A) (applyAll es1 st) = fetchRow (some A) (applyAll es2 st) ∧
    fetchRow (some B) (applyAll es1 st) = fetchRow (some B) (applyAll es2 st) := by
  constructor
  · rw [fetchRow_applyAll_filter, fetchRow_applyAll_filter, hA]
  · rw [fetchRow_applyAll_filter, fetchRow_applyAll_filter, hB]

/-- Witness for C3: two interleavings of A-events [1, 2] and B-event [3]
agree on both authors. -/
theorem claim_C3_witness :
    fetchRow (some "A") (applyAll [("A", (1 : ℚ)), ("B", 3), ("A", 2)] [])
      = fetchRow (some "A") (applyAll [("B", (3 : ℚ)), ("A", 1), ("A", 2)] []) ∧
    fetchRow (some "B") (applyAll [("A", (1 : ℚ)), ("B", 3), ("A", 2)] [])
      = fetchRow (some "B") (applyAll [("B", (3 : ℚ)), ("A", 1), ("A", 2)] []) :=
  claim_C3_interleaving _ _ "A" "B" [] (by decide) (by decide)

/-- C4: processing Alice 0.8, Bob -0.2, Alice 0.4 through
`process_message` from the empty store yields exactly the rows
Alice(2, 0.6) and Bob(1, -0.2). -/
theorem claim_C4_end_to_end :
    ∃ st1 c1 st2 c2 st3 c3,
      process_message ⟨some "Alice", some (SentValue.num (4/5))⟩ [] cache0 = some (st1, c1) ∧
      process_message ⟨some "Bob", some (SentValue.num (-(1/5)))⟩ st1 c1 = some (st2, c2) ∧
      process_message ⟨some "Alice", some (SentValue.num (2/5))⟩ st2 c2 = some (st3, c3) ∧
      st3 = [⟨some "Alice", 2, 3/5⟩, ⟨some "Bob", 1, -(1/5)⟩] :=
  ⟨_, _, _, _, _, _, rfl, rfl, rfl, by
    simp +decide [update_sentiment_by_author, fetchRow, updateRows, sqlKeyEq]
    norm_num⟩

/-- C5 (code bug): with a malformed payload between two valid Alice
messages, the loop terminates at the malformed message (flag false) with
Alice(1, 0.8): the store differs from the Alice(2, 0.6) the two valid
messages alone produce, because the loop has no exception handling. -/
theorem claim_C5_decode_crash :
    (consumeLoop
        [Raw.valid ⟨some "Alice", some (SentValue.num (4/5))⟩,
         Raw.malformed,
         Raw.valid ⟨some "Alice", some (SentValue.num (2/5))⟩] [] cache0).2.2 = false ∧
    (consumeLoop
        [Raw.valid ⟨some "Alice", some (SentValue.num (4/5))⟩,
         Raw.malformed,
         Raw.valid ⟨some "Alice", some (SentValue.num (2/5))⟩] [] cache0).1
      = [⟨some "Alice", 1, 4/5⟩] ∧
    (consumeLoop
        [Raw.valid ⟨some "Alice", some (SentValue.num (4/5))⟩,
         Raw.valid ⟨some "Alice", some (SentValue.num (2/5))⟩] [] cache0).1
      = [⟨some "Alice", 2, 3/5⟩] := by
  refine ⟨?_, ?_, ?_⟩
  · simp +decide [consumeLoop, decode, process_message, getSentiment,
      update_sentiment_by_author, fetchRow, updateRows, sqlKeyEq]
  · simp +decide [consumeLoop, decode, process_message, getSentiment,
      update_sentiment_by_author, fetchRow, updateRows, sqlKeyEq]
  · simp +decide [consumeLoop, decode, process_message, getSentiment,
      update_sentiment_by_author, fetchRow, updateRows, sqlKeyEq]
    norm_num

/-- C6 (amended): an absent sentiment field defaults to 0.0 and the
upsert is applied with 0; a present but non-numeric sentiment makes
`process_message` raise (`none`), applying no update. -/
theorem claim_C6_sentiment_default (m : Message) (st : Store) (c : Cache) :
    (m.sentiment = none →
      process_message m st c
        = some (update_sentiment_by_author m.author 0 st, cacheAdd m.author 0 c)) ∧
    (m.sentiment = some SentValue.nonnum → process_message m st c = none) := by
  constructor
  · intro h
    unfold process_message getSentiment
    rw [h]
  · intro h
    unfold process_message getSentiment
    rw [h]

/-- C6 counterexample: a message whose sentiment field is present but not
parseable as a number makes `process_message` raise instead of applying
the upsert with sentiment 0.0. -/
theorem claim_C6_counterexample :
    process_message ⟨some "Alice", some SentValue.nonnum⟩ [] cache0 = none := rfl

/-- Witness for C6: both branches at concrete inputs. -/
theorem claim_C6_witness :
    process_message ⟨some "A", none⟩ [] cache0
      = some (update_sentiment_by_author (some "A") 0 [], cacheAdd (some "A") 0 cache0) ∧
    process_message ⟨some "B", some SentValue.nonnum⟩ [⟨some "B", 1, 1⟩] cache0 = none :=
  ⟨(claim_C6_sentiment_default ⟨some "A", none⟩ [] cache0).1 rfl,
   (claim_C6_sentiment_default ⟨some "B", some SentValue.nonnum⟩ [⟨some "B", 1, 1⟩] cache0).2 rfl⟩

/-- C7: at process start `main` deletes any existing database file and
creates a fresh empty table before consuming; a row is created on first
sighting of an author, still present on every subsequent sighting, and
no row is ever deleted by the loop. -/
theorem claim_C7_lifecycle :
    (∀ f : DbFile, init_db (unlinkIfExists f) = []) ∧
    (∀ (f : DbFile) (raws : List Raw), mainRun f raws = consumeLoop raws [] cache0) ∧
    (∀ (a : String) (s : ℚ) (st : Store), fetchRow (some a) st = none →
      fetchRow (some a) (update_sentiment_by_author (some a) s st) = some (1, s)) ∧
    (∀ (a : String) (s : ℚ) (st : Store) (n : ℕ) (avg : ℚ),
      fetchRow (some a) st = some (n, avg) →
      (fetchRow (some a) (update_sentiment_by_author (some a) s st)).isSome = true) ∧
    (∀ (raws : List Raw) (st : Store) (c : Cache) (r : SRow), r ∈ st →
      ∃ r2, r2 ∈ (consumeLoop raws st c).1 ∧ r2.key = r.key) := by
  refine ⟨?_, ?_, ?_, ?_, ?_⟩
  · intro f
    cases f with
    | none => rfl
    | some st => rfl
  · intro f raws
    cases f with
    | none => rfl
    | some st => rfl
  · exact fun a s st h => upsert_notfound a s st h
  · intro a s st n avg h
    rw [upsert_found a s st n avg h]
    rfl
  · exact fun raws st c r hr => consumeLoop_keys raws st c r hr

/-- Witness for C7: the five conjuncts at concrete inputs. -/
theorem claim_C7_witness :
    init_db (unlinkIfExists (some [⟨some "Old", 3, 1/2⟩])) = [] ∧
    mainRun (some [⟨some "Old", 3, 1/2⟩]) [Raw.malformed]
      = consumeLoop [Raw.malformed] [] cache0 ∧
    fetchRow (some "A") (update_sentiment_by_author (some "A") (1/2) []) = some (1, 1/2) ∧
    (fetchRow (some "A")
      (update_sentiment_by_author (some "A") (1/2) [⟨some "A", 1, 1/2⟩])).isSome = true ∧
    ∃ r2, r2 ∈ (consumeLoop [Raw.valid ⟨some "B", none⟩] [⟨some "A", 1, 1/2⟩] cache0).1
      ∧ r2.key = some "A" := by
  refine ⟨claim_C7_lifecycle.1 (some [⟨some "Old", 3, 1/2⟩]),
    claim_C7_lifecycle.2.1 (some [⟨some "Old", 3, 1/2⟩]) [Raw.malformed],
    claim_C7_lifecycle.2.2.1 "A" (1/2) [] rfl,
    claim_C7_lifecycle.2.2.2.1 "A" (1/2) [⟨some "A", 1, 1/2⟩] 1 (1/2)
      (by simp [fetchRow, sqlKeyEq]), ?_⟩
  exact claim_C7_lifecycle.2.2.2.2 [Raw.valid ⟨some "B", none⟩] [⟨some "A", 1, 1/2⟩] cache0
    ⟨some "A", 1, 1/2⟩ (List.mem_singleton_self _)

/-- Initially both defaultdicts are empty, so the NULL-row agreement
holds vacuously. -/
theorem nullRowInv_init : nullRowInv [] cache0 :=
  ⟨fun r hr => absurd hr (List.not_mem_nil r),
   fun r hr => absurd hr (List.not_mem_nil r),
   fun _ _ => ⟨rfl, rfl⟩⟩

theorem cacheAdd_keys_mono (x k : Option String) (s : ℚ) (c : Cache)
    (hx : x ∈ c.keys) : x ∈ (cacheAdd k s c).keys := by
  simp only [cacheAdd]
  by_cases h : k ∈ c.keys
  · rw [if_pos h]
    exact hx
  · rw [if_neg h]
    exact List.mem_append_left _ hx

theorem cacheAdd_keys_self (k : Option String) (s : ℚ) (c : Cache) :
    k ∈ (cacheAdd k s c).keys := by
  simp only [cacheAdd]
  by_cases h : k ∈ c.keys
  · rw [if_pos h]
    exact h
  · rw [if_neg h]
    exact List.mem_append_right _ (List.mem_singleton_self k)

theorem cacheAdd_keys_sub (x k : Option String) (s : ℚ) (c : Cache)
    (hx : x ∈ (cacheAdd k s c).keys) : x ∈ c.keys ∨ x = k := by
  simp only [cacheAdd] at hx
  by_cases h : k ∈ c.keys
  · rw [if_pos h] at hx
    exact Or.inl hx
  · rw [if_neg h] at hx
    rcases List.mem_append.1 hx with h2 | h2
    · exact Or.inl h2
    · exact Or.inr (List.mem_singleton.1 h2)

/-- An upsert with a NULL author always inserts: the SELECT's
`WHERE author = NULL` matches no row. -/
theorem upsert_null_eq (s : ℚ) (st : Store) :
    update_sentiment_by_author none s st = st ++ [⟨none, 1, s⟩] := by
  unfold update_sentiment_by_author
  rw [fetchRow_nullKey]

/-- Every row of an upserted store is keyed by the upserted author or by
the key of some pre-existing row. -/
theorem upsert_keys_of_mem (k : Option String) (s : ℚ) (st : Store) (r2 : SRow)
    (hr2 : r2 ∈ update_sentiment_by_author k s st) :
    r2.key = k ∨ ∃ r0, r0 ∈ st ∧ r2.key = r0.key := by
  unfold update_sentiment_by_author at hr2
  cases hF : fetchRow k st with
  | none =>
    rw [hF] at hr2
    rcases List.mem_append.1 hr2 with h | h
    · exact Or.inr ⟨r2, h, rfl⟩
    · simp only [List.mem_singleton] at h
      rw [h]
      exact Or.inl rfl
  | some p =>
    obtain ⟨n, avg⟩ := p
    rw [hF] at hr2
    obtain ⟨r0, hr0, hfr⟩ := List.mem_map.1 hr2
    refine Or.inr ⟨r0, hr0, ?_⟩
    rw [← hfr]
    by_cases h2 : sqlKeyEq r0.key k <;> simp [h2]

/-- One successful write step of `process_message` preserves the
NULL-row agreement, provided the null key was not yet cached (as at
every state the loop can reach: the first authorless message's chart
call ends the run). -/
theorem nullRowInv_step (m : Message) (st : Store) (c : Cache) (st2 : Store) (c2 : Cache)
    (hP : process_message m st c = some (st2, c2))
    (hInv : nullRowInv st c) (hk : none ∉ c.keys) : nullRowInv st2 c2 := by
  obtain ⟨s, hS, hst2, hc2⟩ := process_message_some m st c st2 c2 hP
  subst hst2
  subst hc2
  obtain ⟨h1, h2, h3⟩ := hInv
  have hNoNull : ∀ r ∈ st, r.key ≠ none := fun r hr hkey => hk (hkey ▸ h2 r hr)
  obtain ⟨hz1, hz2⟩ := h3 none hk
  cases hMA : m.author with
  | none =>
    rw [upsert_null_eq]
    refine ⟨?_, ?_, ?_⟩
    · intro r hr hkey
      rcases List.mem_append.1 hr with h | h
      · exact absurd hkey (hNoNull r h)
      · simp only [List.mem_singleton] at h
        subst h
        refine ⟨?_, ?_, Nat.one_pos⟩
        · simp [cacheAdd, hz1]
        · simp [cacheAdd, hz2]
    · intro r hr
      have hkeys : (cacheAdd none s c).keys = c.keys ++ [none] := by
        simp only [cacheAdd]
        rw [if_neg hk]
      rw [hkeys]
      rcases List.mem_append.1 hr with h | h
      · exact List.mem_append_left _ (h2 r h)
      · simp only [List.mem_singleton] at h
        subst h
        exact List.mem_append_right _ (List.mem_singleton_self none)
    · intro k2 hk2
      have hk2c : k2 ∉ c.keys := fun h => hk2 (cacheAdd_keys_mono k2 none s c h)
      have hk2n : ¬ (k2 = none) := fun h => hk2 (h ▸ cacheAdd_keys_self none s c)
      obtain ⟨ha, hb⟩ := h3 k2 hk2c
      constructor
      · simpa [cacheAdd, hk2n] using ha
      · simpa [cacheAdd, hk2n] using hb
  | some b =>
    refine ⟨?_, ?_, ?_⟩
    · intro r hr hkey
      rcases upsert_keys_of_mem (some b) s st r hr with h | ⟨r0, hr0, hfr⟩
      · exact absurd (hkey ▸ h).symm (Option.noConfusion)
      · exact absurd (hfr ▸ hkey) (hNoNull r0 hr0)
    · intro r hr
      rcases upsert_keys_of_mem (some b) s st r hr with h | ⟨r0, hr0, hfr⟩
      · rw [h]
        exact cacheAdd_keys_self (some b) s c
      · rw [hfr]
        exact cacheAdd_keys_mono r0.key (some b) s c (h2 r0 hr0)
    · intro k2 hk2
      have hk2c : k2 ∉ c.keys := fun h => hk2 (cacheAdd_keys_mono k2 (some b) s c h)
      have hk2b : ¬ (k2 = some b) := fun h => hk2 (h ▸ cacheAdd_keys_self (some b) s c)
      obtain ⟨ha, hb⟩ := h3 k2 hk2c
      constructor
      · simpa [cacheAdd, hk2b] using ha
      · simpa [cacheAdd, hk2b] using hb

/-- Along any run of the full loop (chart error path included) from a
state whose cache has no null key, the lookup-based agreement, the
NULL-row agreement and row positivity all hold at the final state. -/
theorem fullInv_loop (raws : List Raw) (st : Store) (c : Cache)
    (h1 : cacheInv st c) (h2 : nullRowInv st c) (h3 : storePos st)
    (hk : none ∉ c.keys) :
    cacheInv (consumeLoopFull raws st c).1 (consumeLoopFull raws st c).2.1 ∧
    nullRowInv (consumeLoopFull raws st c).1 (consumeLoopFull raws st c).2.1 ∧
    storePos (consumeLoopFull raws st c).1 := by
  induction raws generalizing st c with
  | nil => exact ⟨h1, h2, h3⟩
  | cons raw rest ih =>
    cases raw with
    | malformed => exact ⟨h1, h2, h3⟩
    | valid m =>
      cases hP : process_message m st c with
      | none =>
        simp only [consumeLoopFull, decode, process_message_full, hP]
        exact ⟨h1, h2, h3⟩
      | some p =>
        obtain ⟨st2, c2⟩ := p
        obtain ⟨s, hS, hst2, hc2⟩ := process_message_some m st c st2 c2 hP
        have h1b := cacheInv_preserved m st c st2 c2 hP h1
        have h2b := nullRowInv_step m st c st2 c2 hP h2 hk
        have h3b : storePos st2 := hst2 ▸ storePos_upsert m.author s st h3
        cases hC : update_live_chart c2 with
        | none =>
          simp only [consumeLoopFull, decode, process_message_full, hP, hC]
          exact ⟨h1b, h2b, h3b⟩
        | some u =>
          have hk2 : none ∉ c2.keys := by
            intro hmem
            rw [update_live_chart, if_pos hmem] at hC
            exact Option.noConfusion hC
          simp only [consumeLoopFull, decode, process_message_full, hP, hC]
          exact ih st2 c2 h1b h2b h3b hk2

/-- C8: after any run of the consumer from a fresh start, with the
chart call's error path modelled (`ax.bar` raises on a None author key,
ending the loop), the in-memory caches agree with the store for every
author seen: for a string author, the cached count equals the stored
`num_messages` of the row the SELECT finds and the cached sentiment sum
divided by the cached count equals its stored `average_sentiment`; for
the null author of an authorless message — whose chart call crashes the
loop — the same holds of its single committed NULL-keyed row.  The
cache never drifts from the store. -/
theorem claim_C8_cache_store_agreement (raws : List Raw) :
    (∀ (a : String) (n : ℕ) (avg : ℚ),
      fetchRow (some a) (consumeLoopFull raws [] cache0).1 = some (n, avg) →
      (consumeLoopFull raws [] cache0).2.1.author_counts (some a) = n ∧
      (consumeLoopFull raws [] cache0).2.1.author_sentiments (some a)
        / ((consumeLoopFull raws [] cache0).2.1.author_counts (some a) : ℚ) = avg) ∧
    (∀ r ∈ (consumeLoopFull raws [] cache0).1, r.key = none →
      (consumeLoopFull raws [] cache0).2.1.author_counts none = r.count ∧
      (consumeLoopFull raws [] cache0).2.1.author_sentiments none
        / ((consumeLoopFull raws [] cache0).2.1.author_counts none : ℚ) = r.avg) := by
  obtain ⟨h1, h2, h3⟩ := fullInv_loop raws [] cache0 cacheInv_init nullRowInv_init
    (fun r hr => absurd hr (List.not_mem_nil r)) (List.not_mem_nil none)
  constructor
  · intro a n avg h
    obtain ⟨hcn, hcs⟩ := h1 a
    rw [h] at hcn hcs
    simp only [Option.elim] at hcn hcs
    have hn : 0 < n := fetchRow_pos (some a) _ n avg h3 h
    have hn0 : (n : ℚ) ≠ 0 := Nat.cast_ne_zero.2 (Nat.pos_iff_ne_zero.1 hn)
    refine ⟨hcn, ?_⟩
    rw [hcn, hcs]
    exact mul_div_cancel_right₀ avg hn0
  · intro r hr hkey
    obtain ⟨hcn, hcs, hpos⟩ := h2.1 r hr hkey
    have hn0 : (r.count : ℚ) ≠ 0 := Nat.cast_ne_zero.2 (Nat.pos_iff_ne_zero.1 hpos)
    refine ⟨hcn, ?_⟩
    rw [hcn, hcs]
    exact mul_div_cancel_right₀ r.avg hn0

/-- Witness for C8: a string-author run (the chart draws, the loop
completes) and an authorless run (the chart call crashes the loop after
one committed NULL row); in both, cache and store agree. -/
theorem claim_C8_witness :
    (consumeLoopFull [Raw.valid ⟨some "A", some (SentValue.num (1/2))⟩] []
        cache0).2.1.author_counts (some "A") = 1 ∧
    (consumeLoopFull [Raw.valid ⟨some "A", some (SentValue.num (1/2))⟩] []
        cache0).2.1.author_sentiments (some "A")
      / ((consumeLoopFull [Raw.valid ⟨some "A", some (SentValue.num (1/2))⟩] []
          cache0).2.1.author_counts (some "A") : ℚ) = 1/2 ∧
    (consumeLoopFull [Raw.valid ⟨none, some (SentValue.num (1/2))⟩] []
        cache0).2.1.author_counts none = 1 ∧
    (consumeLoopFull [Raw.valid ⟨none, some (SentValue.num (1/2))⟩] []
        cache0).2.1.author_sentiments none
      / ((consumeLoopFull [Raw.valid ⟨none, some (SentValue.num (1/2))⟩] []
          cache0).2.1.author_counts none : ℚ) = 1/2 := by
  obtain ⟨hA1, hA2⟩ := (claim_C8_cache_store_agreement
      [Raw.valid ⟨some "A", some (SentValue.num (1/2))⟩]).1 "A" 1 (1/2)
    (by simp +decide [consumeLoopFull, process_message_full, update_live_chart, decode,
      process_message, getSentiment, update_sentiment_by_author, fetchRow, updateRows,
      sqlKeyEq, cacheAdd, cache0])
  obtain ⟨hN1, hN2⟩ := (claim_C8_cache_store_agreement
      [Raw.valid ⟨none, some (SentValue.num (1/2))⟩]).2 ⟨none, 1, 1/2⟩
    (by simp +decide [consumeLoopFull, process_message_full, update_live_chart, decode,
      process_message, getSentiment, update_sentiment_by_author, fetchRow, updateRows,
      sqlKeyEq, cacheAdd, cache0]) rfl
  exact ⟨hA1, hA2, hN1, hN2⟩

/-- C9 (amended): provided every valid message carries a present,
non-empty author string, every row of the final store is keyed by a
present, non-empty author.  (The code itself never checks this; see the
counterexample.) -/
theorem claim_C9_author_validity (raws : List Raw)
    (hm : ∀ m, Raw.valid m ∈ raws → ∃ a, m.author = some a ∧ a ≠ "") :
    validRows (consumeLoop raws [] cache0).1 :=
  validRows_loop raws [] cache0 hm (fun r hr => absurd hr (List.not_mem_nil r))

/-- C9 counterexample: a message with no author field inserts a row whose
author key is SQL NULL. -/
theorem claim_C9_counterexample :
    ∃ r, r ∈ (consumeLoop [Raw.valid ⟨none, some (SentValue.num (1/2))⟩] [] cache0).1
      ∧ r.key = none := by
  refine ⟨⟨none, 1, 1/2⟩, ?_, rfl⟩
  simp +decide [consumeLoop, decode, process_message, getSentiment,
    update_sentiment_by_author, fetchRow, updateRows, sqlKeyEq]

/-- Witness for C9: a single valid message for author A. -/
theorem claim_C9_witness :
    validRows (consumeLoop [Raw.valid ⟨some "A", some (SentValue.num (1/2))⟩] [] cache0).1 :=
  claim_C9_author_validity [Raw.valid ⟨some "A", some (SentValue.num (1/2))⟩]
    (fun m hm2 => by
      simp only [List.mem_singleton, Raw.valid.injEq] at hm2
      exact ⟨"A", by rw [hm2], by decide⟩)

/-- C10: the upsert for one author leaves every other author's row
unchanged and removes no row. -/
theorem claim_C10_frame (author b : String) (s : ℚ) (st : Store) (hne : b ≠ author) :
    fetchRow (some b) (update_sentiment_by_author (some author) s st) = fetchRow (some b) st ∧
    ∀ r ∈ st, ∃ r2, r2 ∈ update_sentiment_by_author (some author) s st ∧ r2.key = r.key := by
  constructor
  · exact upsert_frame (some author) b (fun hc => hne (Option.some.inj hc).symm) s st
  · exact fun r hr => upsert_keys (some author) s st r hr

/-- Witness for C10: an upsert for A leaves B's row untouched. -/
theorem claim_C10_witness :
    (fetchRow (some "B") (update_sentiment_by_author (some "A") (1/2) [⟨some "B", 2, 1/4⟩])
      = fetchRow (some "B") [⟨some "B", 2, 1/4⟩]) ∧
    ∀ r ∈ [(⟨some "B", 2, 1/4⟩ : SRow)], ∃ r2,
      r2 ∈ update_sentiment_by_author (some "A") (1/2) [⟨some "B", 2, 1/4⟩] ∧ r2.key = r.key :=
  claim_C10_frame "A" "B" (1/2) [⟨some "B", 2, 1/4⟩] (by decide)
